import Mathlib

/-!
Verification of the constraint-aware material recommendation engine of
`backend/prediction.py` (functions `_minmax`, `load_models`,
`_compute_indices_and_scores`, `_build_reason`, `recommend`).

Numeric values are modelled as rationals `ℚ` (the Python code computes with
IEEE doubles; every constant and operation used by the engine is exact at the
inputs considered here, and the algebraic properties proved below are about
the real-number algorithm the code implements).  Prediction arrays are lists
of per-material values; the two regression pipelines are black boxes, modelled
as functions from the product and a catalog row to a rational.  The separate
type `NpFloat` models the NumPy float64 value domain (a number or NaN) where
the behaviour of `np.maximum` on NaN matters.
-/

/- `Rat.add` and friends are `@[irreducible]` in Batteries, which blocks
kernel evaluation of concrete rational arithmetic; restore the default
reducibility for this development. -/
set_option allowUnsafeReducibility true in
attribute [semireducible] Rat.add Rat.mul Rat.sub Rat.inv Rat.div

namespace EcoPack

/-- A catalog row of the materials table, restricted to the columns the
engine reads: `MaterialName`, `MaterialType`, `StrengthRating`,
`MoistureBarrier`, `OxygenBarrier`, `CostPerKG_USD`. -/
structure Material where
  materialName : String
  materialType : String
  strengthRating : ℚ
  moistureBarrier : ℚ
  oxygenBarrier : ℚ
  costPerKG : ℚ
deriving DecidableEq

/-- The product fields `recommend` reads (prediction.py lines 428, 450-454):
`weightKg`, `fragility`, `moistureReq`, `oxygenSensitivity`, `maxBudget`.
The scoring frame uses the raw values, without the clamping that
`_build_inference_frame` applies to the predictor features. -/
structure Product where
  weightKg : ℚ
  fragility : ℚ
  moistureReq : ℚ
  oxygenSensitivity : ℚ
  maxBudget : ℚ
deriving DecidableEq

/-- Model of `pandas.Series.min` over the values of the series (prediction.py line 60). -/
def listMin : List ℚ → Option ℚ
  | [] => none
  | x :: xs =>
    some (match listMin xs with
      | none => x
      | some m => min x m)

/-- Model of `pandas.Series.max` over the values of the series (prediction.py line 60). -/
def listMax : List ℚ → Option ℚ
  | [] => none
  | x :: xs =>
    some (match listMax xs with
      | none => x
      | some m => max x m)

/-- The elementwise value of `_minmax` (prediction.py lines 58-63): the series
minimum and maximum are shared across the series; a degenerate series
(`mn == mx`, or an empty one, where pandas yields NaN bounds) maps every
element to the constant 1/2. -/
def minmaxVal (xs : List ℚ) (x : ℚ) : ℚ :=
  match listMin xs, listMax xs with
  | some mn, some mx => if mn = mx then 1/2 else (x - mn) / (mx - mn)
  | _, _ => 1/2

/-- Model of `pandas.Series.clip(lo, hi)`. -/
def clip (lo hi x : ℚ) : ℚ := min hi (max lo x)

/-- Insertion step of an ascending sort on rationals. -/
def insertAscRat (x : ℚ) : List ℚ → List ℚ
  | [] => [x]
  | y :: ys => if y < x then y :: insertAscRat x ys else x :: y :: ys

/-- Ascending sort on rationals (the sorted list of values of a multiset of
rationals is unique, so any correct sort models NumPy's). -/
def sortAscRat : List ℚ → List ℚ
  | [] => []
  | x :: xs => insertAscRat x (sortAscRat xs)

/-- Model of `np.median`: sort ascending; the middle element for odd length, the mean
of the two middle elements for even length. -/
def npMedian (xs : List ℚ) : ℚ :=
  let s := sortAscRat xs
  let n := s.length
  if n % 2 = 1 then s.getD (n / 2) 0
  else (s.getD (n / 2 - 1) 0 + s.getD (n / 2) 0) / 2

/-- A NumPy float64 value: NaN or a (rational) number. -/
inductive NpFloat where
  | nan : NpFloat
  | val : ℚ → NpFloat
deriving DecidableEq

/-- Model of `np.maximum(x, 0.0)` (prediction.py lines 226-228 and 426-427) on a single
float64 value: a negative number is replaced by 0, and NaN propagates — NumPy's
`maximum` returns NaN whenever either argument is NaN. -/
def npMaximumZero : NpFloat → NpFloat
  | NpFloat.nan => NpFloat.nan
  | NpFloat.val q => NpFloat.val (max q 0)

/-- Round half to even on a rational, as Python's builtin `round` does. -/
def roundHalfEven (q : ℚ) : ℤ :=
  let n := ⌊q⌋
  let r := q - n
  if r < 1/2 then n
  else if 1/2 < r then n + 1
  else if n % 2 = 0 then n else n + 1

/-- Python `round(x, 1)`. -/
def pyRound1 (q : ℚ) : ℚ := (roundHalfEven (10 * q) : ℚ) / 10

/-- A caller-supplied weights dictionary `{co2, cost}`. -/
structure Weights where
  co2 : ℚ
  cost : ℚ
deriving DecidableEq

/-- The clamp `if w < 0: w = 0.0` applied to each supplied weight
(prediction.py lines 239-243). -/
def clampNegWeight (x : ℚ) : ℚ := if x < 0 then 0 else x

/-- The co2/cost pair before the risk remainder is computed (prediction.py
lines 234-248): defaults co2=0.50, cost=0.35 when no dict is supplied;
negatives clamped to 0; if the sum exceeds 1 both are divided by the sum. -/
def rawWeights : Option Weights → ℚ × ℚ
  | none => (1/2, 35/100)
  | some w =>
    if 1 < clampNegWeight w.co2 + clampNegWeight w.cost then
      (clampNegWeight w.co2 / (clampNegWeight w.co2 + clampNegWeight w.cost),
        clampNegWeight w.cost / (clampNegWeight w.co2 + clampNegWeight w.cost))
    else (clampNegWeight w.co2, clampNegWeight w.cost)

/-- Weight resolution of `_compute_indices_and_scores` (prediction.py lines
233-256): risk is the remainder `1 - (co2 + cost)`, with a defensive
renormalisation branch should the remainder come out negative (the branch
sets risk to 0, recomputes the total with the zeroed risk included, and
rescales co2 and cost by it when positive). -/
def resolveWeights (weights : Option Weights) : ℚ × ℚ × ℚ :=
  if 1 - ((rawWeights weights).1 + (rawWeights weights).2) < 0 then
    if 0 < (rawWeights weights).1 + (rawWeights weights).2 + 0 then
      ((rawWeights weights).1 / ((rawWeights weights).1 + (rawWeights weights).2 + 0),
        (rawWeights weights).2 / ((rawWeights weights).1 + (rawWeights weights).2 + 0), 0)
    else ((rawWeights weights).1, (rawWeights weights).2, 0)
  else ((rawWeights weights).1, (rawWeights weights).2,
    1 - ((rawWeights weights).1 + (rawWeights weights).2))

/-- The four constraint flags of the scoring frame (prediction.py lines
450-464): signs of the gaps between the catalog's static attributes and the
product requirements.  `overBudget` compares the catalog `CostPerKG_USD`
times the product weight against the budget — not the predicted cost. -/
structure Flags where
  strengthInsufficient : Bool
  moistureInsufficient : Bool
  oxygenInsufficient : Bool
  overBudget : Bool
deriving DecidableEq

def computeFlags (p : Product) (m : Material) : Flags where
  strengthInsufficient := decide (m.strengthRating - p.fragility < 0)
  moistureInsufficient := decide (m.moistureBarrier - p.moistureReq < 0)
  oxygenInsufficient := decide (m.oxygenBarrier - p.oxygenSensitivity < 0)
  overBudget := decide (p.maxBudget - m.costPerKG * p.weightKg < 0)

/-- Conversion `.astype(int)` of a boolean flag column. -/
def flagInt (b : Bool) : ℚ := if b then 1 else 0

/-- A surviving material entering `_compute_indices_and_scores`: the catalog
row, its constraint flags, and its two raw predictions. -/
structure Prescored where
  mat : Material
  flags : Flags
  predCost : ℚ
  predCO2 : ℚ
deriving DecidableEq

/-- A fully scored row of `_compute_indices_and_scores` (lines 226-287). -/
structure Scored where
  mat : Material
  flags : Flags
  predictedCost : ℚ
  predictedCO2 : ℚ
  costEfficiencyIndex : ℚ
  co2ImpactIndex : ℚ
  suitability : ℚ
  ranking : ℚ
deriving DecidableEq

/-- Clamp `np.maximum(pred_cost, 0.0)` for one row (line 227). -/
def clampedCost (t : Prescored) : ℚ := max t.predCost 0

/-- Clamp `np.maximum(pred_co2, 0.0)` for one row (line 228). -/
def clampedCO2 (t : Prescored) : ℚ := max t.predCO2 0

/-- Index `CostEfficiencyIndex = (1 - _minmax(predicted_cost)) * 100` (line 230). -/
def costIndexOf (costs : List ℚ) (t : Prescored) : ℚ :=
  (1 - minmaxVal costs (clampedCost t)) * 100

/-- Index `CO2ImpactIndex = (1 - _minmax(predicted_co2)) * 100` (line 231). -/
def co2IndexOf (co2s : List ℚ) (t : Prescored) : ℚ :=
  (1 - minmaxVal co2s (clampedCO2 t)) * 100

/-- The constraint penalty (lines 269-274). -/
def penaltyOf (f : Flags) : ℚ :=
  25 * flagInt f.strengthInsufficient + 20 * flagInt f.moistureInsufficient +
    20 * flagInt f.oxygenInsufficient + 25 * flagInt f.overBudget

/-- The weighted base suitability, clipped to [0,100] (lines 261-265). -/
def baseSuitability (w : ℚ × ℚ × ℚ) (zi ci : ℚ) (f : Flags) : ℚ :=
  clip 0 100 (w.1 * zi + w.2.1 * ci + w.2.2 * (100 - 25 * flagInt f.strengthInsufficient))

/-- Score `MaterialSuitabilityScore = (base - penalty).clip(0, 100)` (line 275). -/
def suitabilityOf (w : ℚ × ℚ × ℚ) (zi ci : ℚ) (f : Flags) : ℚ :=
  clip 0 100 (baseSuitability w zi ci f - penaltyOf f)

/-- Score `RankingScore = (0.60*suit + 0.20*co2idx + 0.20*costidx).clip(0, 100)`
(lines 281-285). -/
def rankingOf (suit zi ci : ℚ) : ℚ :=
  clip 0 100 (60/100 * suit + 20/100 * zi + 20/100 * ci)

/-- One row of `_compute_indices_and_scores` (lines 226-287): clamp the
predictions, form the two 0-100 indices relative to the surviving set, and
derive the suitability and ranking scores. -/
def scoreOne (costs co2s : List ℚ) (w : ℚ × ℚ × ℚ) (t : Prescored) : Scored where
  mat := t.mat
  flags := t.flags
  predictedCost := clampedCost t
  predictedCO2 := clampedCO2 t
  costEfficiencyIndex := costIndexOf costs t
  co2ImpactIndex := co2IndexOf co2s t
  suitability := suitabilityOf w (co2IndexOf co2s t) (costIndexOf costs t) t.flags
  ranking := rankingOf (suitabilityOf w (co2IndexOf co2s t) (costIndexOf costs t) t.flags)
    (co2IndexOf co2s t) (costIndexOf costs t)

/-- Model of `_compute_indices_and_scores` over the list of surviving candidates: the
index normalisation is relative to the surviving set only. -/
def computeIndicesAndScores (cands : List Prescored) (weights : Option Weights) :
    List Scored :=
  cands.map (scoreOne (cands.map clampedCost) (cands.map clampedCO2) (resolveWeights weights))

/-- Model of `_build_reason` (prediction.py lines 290-315). -/
def buildReason (s : Scored) : String :=
  let tags : List String :=
    (if 70 ≤ s.co2ImpactIndex then ["Low CO₂ footprint"] else []) ++
    (if 70 ≤ s.costEfficiencyIndex then ["Cost efficient"] else []) ++
    (if s.flags.overBudget then ["Over budget"] else []) ++
    (if s.flags.strengthInsufficient then ["Strength may be insufficient"] else [])
  if tags.isEmpty then "Optimised for sustainability and cost."
  else String.intercalate ", " tags

/-- One output dictionary of `recommend` (lines 481-502).  The nested
`explanation` dict of `_build_detailed_explanation` is presentation-only prose
derived from the same row fields and is not modelled. -/
structure Candidate where
  materialName : String
  materialType : String
  rankingScore : ℚ
  suitabilityScore : ℚ
  predictedCost : ℚ
  predictedCO2 : ℚ
  reason : String
  confidenceScore : ℚ
  co2ImpactIndex : ℚ
  costEfficiencyIndex : ℚ
deriving DecidableEq

def buildResult (s : Scored) : Candidate where
  materialName := s.mat.materialName
  materialType := s.mat.materialType
  rankingScore := s.ranking
  suitabilityScore := s.suitability
  predictedCost := s.predictedCost
  predictedCO2 := s.predictedCO2
  reason := buildReason s
  confidenceScore := pyRound1 (max 0 (min 100 s.suitability))
  co2ImpactIndex := s.co2ImpactIndex
  costEfficiencyIndex := s.costEfficiencyIndex

/-- Insertion step of the descending sort on `rankingScore`.  An element is
inserted after every earlier element whose score is strictly larger, and
before the first whose score is at most its own, so earlier elements win
ties. -/
def insertDesc (x : Candidate) : List Candidate → List Candidate
  | [] => [x]
  | y :: ys =>
    if x.rankingScore < y.rankingScore then y :: insertDesc x ys
    else x :: y :: ys

/-- Model of `results.sort(key=lambda x: x["rankingScore"], reverse=True)` (line 505).
CPython's list.sort is a stable sort; a stable descending sort on the key is
extensionally unique, so this structural stable insertion sort models it. -/
def sortDesc : List Candidate → List Candidate
  | [] => []
  | x :: xs => insertDesc x (sortDesc xs)

/-- The process state `recommend` runs against: whether the model manifest and
model files exist, the raw materials catalog, and the two loaded regression
pipelines as black-box per-row predictors (each pipeline maps one row of the
inference frame — determined by the product and the catalog row — to one
predicted value). -/
structure Env where
  manifestExists : Bool
  modelFilesExist : Bool
  catalog : List Material
  costModel : Product → Material → ℚ
  co2Model : Product → Material → ℚ

/-- Model of `load_models` (prediction.py lines 108-139): a missing manifest or missing
model file raises; otherwise the models and catalog are available. -/
def loadModels (env : Env) : Except String Unit :=
  if env.manifestExists = false then
    Except.error "Missing model_manifest.json. Run train_models.py first."
  else if env.modelFilesExist = false then
    Except.error "Model files missing"
  else Except.ok ()

/-- The per-material predictions of the cost pipeline, in catalog order. -/
def predCostList (env : Env) (p : Product) : List ℚ :=
  env.catalog.map (env.costModel p)

/-- The per-material predictions of the CO₂ pipeline, in catalog order. -/
def predCO2List (env : Env) (p : Product) : List ℚ :=
  env.catalog.map (env.co2Model p)

/-- Array `cost_values = np.maximum(pred_cost, 0.0)` (line 427). -/
def costValuesOf (env : Env) (p : Product) : List ℚ :=
  (predCostList env p).map (fun v => max v 0)

/-- Array `co2_values = np.maximum(pred_co2, 0.0)` (line 426). -/
def co2ValuesOf (env : Env) (p : Product) : List ℚ :=
  (predCO2List env p).map (fun v => max v 0)

/-- Boolean-mask row filtering, `df[mask]` (lines 439-441). -/
def maskFilter {α : Type} : List α → List Bool → List α
  | x :: xs, b :: bs => if b then x :: maskFilter xs bs else maskFilter xs bs
  | _, _ => []

/-- The strict feasibility mask (lines 429-430): budget and median-CO₂ test
on the clamped prediction arrays.  With no materials the threshold is `inf`
and the emission test is vacuously true. -/
def strictMask (costValues co2Values : List ℚ) (maxBudget : ℚ) : List Bool :=
  if co2Values.isEmpty then
    costValues.map (fun c => decide (c ≤ maxBudget))
  else
    List.zipWith (fun c z => decide (c ≤ maxBudget) && decide (z ≤ npMedian co2Values))
      costValues co2Values

/-- The feasibility mask of `recommend` (lines 428-434): the strict mask,
relaxed to budget-only when no material passes both tests. -/
def feasMask (costValues co2Values : List ℚ) (maxBudget : ℚ) : List Bool :=
  if (strictMask costValues co2Values maxBudget).any id then
    strictMask costValues co2Values maxBudget
  else costValues.map (fun c => decide (c ≤ maxBudget))

def feasMaskOf (env : Env) (p : Product) : List Bool :=
  feasMask (costValuesOf env p) (co2ValuesOf env p) p.maxBudget

/-- The surviving materials with their raw predictions
(`filtered_materials`, `filtered_cost`, `filtered_co2`, lines 439-441). -/
def survivorsOf (env : Env) (p : Product) : List (Material × ℚ × ℚ) :=
  maskFilter (env.catalog.zip ((predCostList env p).zip (predCO2List env p)))
    (feasMaskOf env p)

/-- The scoring frame built for the survivors (lines 444-464). -/
def prescoredOf (env : Env) (p : Product) : List Prescored :=
  (survivorsOf env p).map (fun t => ⟨t.1, computeFlags p t.1, t.2.1, t.2.2⟩)

def scoredOf (env : Env) (p : Product) (w : Option Weights) : List Scored :=
  computeIndicesAndScores (prescoredOf env p) w

/-- The `results` list built row by row (lines 469-502), in survivor order. -/
def resultsOf (env : Env) (p : Product) (w : Option Weights) : List Candidate :=
  (scoredOf env p w).map buildResult

def sortedResultsOf (env : Env) (p : Product) (w : Option Weights) : List Candidate :=
  sortDesc (resultsOf env p w)

/-- Model of `recommend` (prediction.py lines 409-506): load the models (propagating a
load failure), predict, filter, score, sort descending by ranking score and
return the first five results. -/
def recommend (env : Env) (p : Product) (weights : Option Weights) :
    Except String (List Candidate) :=
  match loadModels env with
  | Except.error e => Except.error e
  | Except.ok _ => Except.ok ((sortedResultsOf env p weights).take 5)

/-- Fold one further value into an optional running minimum. -/
def combineMin (z : ℚ) : Option ℚ → ℚ
  | none => z
  | some m => min z m

/-- Fold one further value into an optional running maximum. -/
def combineMax (z : ℚ) : Option ℚ → ℚ
  | none => z
  | some m => max z m

/-- Placeholder row used as the (never relevant) default of `List.getD`. -/
def defaultScored : Scored :=
  ⟨⟨"", "", 0, 0, 0, 0⟩, ⟨false, false, false, false⟩, 0, 0, 0, 0, 0, 0⟩

/-- Placeholder output record used as the (never relevant) default of
`List.getD`. -/
def defaultCandidate : Candidate := ⟨"", "", 0, 0, 0, 0, "", 0, 0, 0⟩

/-! ### Concrete fixtures used by witnesses and counterexamples -/

/-- A permissive product: weight 1, fragility 5, moisture 5, oxygen 5 and a
budget of 10^9 (the default `recommend` uses when no budget is supplied). -/
def prodFree : Product := ⟨1, 5, 5, 5, 1000000000⟩

def matA6 : Material := ⟨"A", "Box", 10, 10, 10, 1⟩
def matI6 : Material := ⟨"I", "Box", 10, 10, 10, 1⟩
def matJ6 : Material := ⟨"J", "Box", 10, 10, 10, 1⟩
def matK6 : Material := ⟨"K", "Box", 10, 10, 10, 1⟩

/-- Cost predictor for the monotonicity scenario: material J is predicted to
be very expensive, every other material costs 5 per unit. -/
def costModelC6 : Product → Material → ℚ := fun _ m =>
  if m.materialName = "J" then 10000 else 5

/-- CO₂ predictor, first scenario: A ↦ 0, I ↦ 1, J ↦ 6, K ↦ 100. -/
def co2ModelC6a : Product → Material → ℚ := fun _ m =>
  if m.materialName = "A" then 0
  else if m.materialName = "I" then 1
  else if m.materialName = "J" then 6
  else 100

/-- CO₂ predictor, second scenario: identical to `co2ModelC6a` except that
material I's prediction is raised from 1 to 6. -/
def co2ModelC6b : Product → Material → ℚ := fun _ m =>
  if m.materialName = "A" then 0
  else if m.materialName = "I" then 6
  else if m.materialName = "J" then 6
  else 100

def envC6a : Env := ⟨true, true, [matA6, matI6, matJ6, matK6], costModelC6, co2ModelC6a⟩

def envC6b : Env := ⟨true, true, [matA6, matI6, matJ6, matK6], costModelC6, co2ModelC6b⟩

/-- Six catalog rows, all feasible under `prodFree` and `costModelC5`. -/
def catalogC5 : List Material :=
  [⟨"M1", "Box", 10, 10, 10, 1⟩, ⟨"M2", "Box", 10, 10, 10, 1⟩,
    ⟨"M3", "Box", 10, 10, 10, 1⟩, ⟨"M4", "Box", 10, 10, 10, 1⟩,
    ⟨"M5", "Box", 10, 10, 10, 1⟩, ⟨"M6", "Box", 10, 10, 10, 1⟩]

def costModelC5 : Product → Material → ℚ := fun _ m =>
  if m.materialName = "M1" then 1
  else if m.materialName = "M2" then 2
  else if m.materialName = "M3" then 3
  else if m.materialName = "M4" then 4
  else if m.materialName = "M5" then 5
  else 6

def envC5 : Env := ⟨true, true, catalogC5, costModelC5, fun _ _ => 4⟩

/-- Three catalog rows whose predicted costs are 0, 1 and 3 with equal
predicted CO₂, so the middle one gets cost index (1 - 1/3)·100 = 200/3 and a
suitability score of 190/3, which is not a multiple of 0.1. -/
def catalogC9 : List Material :=
  [⟨"P0", "Box", 10, 10, 10, 1⟩, ⟨"P1", "Box", 10, 10, 10, 1⟩,
    ⟨"P3", "Box", 10, 10, 10, 1⟩]

def costModelC9 : Product → Material → ℚ := fun _ m =>
  if m.materialName = "P0" then 0
  else if m.materialName = "P1" then 1
  else 3

def envC9 : Env := ⟨true, true, catalogC9, costModelC9, fun _ _ => 4⟩

/-- A product of weight 2 with budget 10, and a material whose catalog
`CostPerKG_USD` is 6: the static cost 6·2 = 12 exceeds the budget, while the
predicted cost 5 stays below it. -/
def prodC10 : Product := ⟨2, 5, 5, 5, 10⟩

def matC10 : Material := ⟨"OB", "Box", 10, 10, 10, 6⟩

def envC10 : Env := ⟨true, true, [matC10], fun _ _ => 5, fun _ _ => 3⟩

/-- Identical to `envC10` except that the catalog cost per kg is 1, so the
over-budget flag is not raised; used to exhibit the 25-point penalty. -/
def matC10b : Material := ⟨"OB", "Box", 10, 10, 10, 1⟩

def envC10b : Env := ⟨true, true, [matC10b], fun _ _ => 5, fun _ _ => 3⟩

/-- An environment whose only material is predicted to cost 50 against a
budget of 10: the budget-only fallback is empty as well. -/
def envBudget : Env := ⟨true, true, [matC10b], fun _ _ => 50, fun _ _ => 3⟩

def prodBudget : Product := ⟨1, 5, 5, 5, 10⟩

/-- An environment with a missing model manifest. -/
def envNoManifest : Env := ⟨false, true, [matC10b], fun _ _ => 5, fun _ _ => 3⟩

/-- A surviving candidate used to instantiate scoring-level theorems. -/
def tW : Prescored := ⟨⟨"W", "Box", 10, 10, 10, 1⟩, ⟨false, false, false, false⟩, 5, 3⟩

/-- A second candidate with a different prediction pair. -/
def tW2 : Prescored := ⟨⟨"W2", "Box", 10, 10, 10, 1⟩, ⟨false, false, false, false⟩, 7, 9⟩

/-! ### Numeric helper lemmas -/

theorem clip_low_le (lo hi x : ℚ) (h : lo ≤ hi) : lo ≤ clip lo hi x :=
  le_min h (le_max_left lo x)

theorem clip_le_high (lo hi x : ℚ) : clip lo hi x ≤ hi := min_le_left hi _

theorem clip_mono (lo hi : ℚ) {x y : ℚ} (h : x ≤ y) : clip lo hi x ≤ clip lo hi y :=
  min_le_min le_rfl (max_le_max le_rfl h)

theorem clip_eq_self {lo hi x : ℚ} (h0 : lo ≤ x) (h1 : x ≤ hi) : clip lo hi x = x := by
  unfold clip
  rw [max_eq_right h0, min_eq_right h1]

theorem listMin_spec (l : List ℚ) :
    (l = [] ∧ listMin l = none) ∨
      ∃ m, listMin l = some m ∧ m ∈ l ∧ ∀ x ∈ l, m ≤ x := by
  induction l with
  | nil => exact Or.inl ⟨rfl, rfl⟩
  | cons a t ih =>
    right
    rcases ih with ⟨rfl, ht⟩ | ⟨mt, hmt, hmem, hle⟩
    · refine ⟨a, ?_, List.mem_cons_self a [], ?_⟩
      · simp [listMin]
      · intro x hx
        rcases List.mem_cons.mp hx with rfl | hx
        · exact le_rfl
        · simp at hx
    · refine ⟨min a mt, ?_, ?_, ?_⟩
      · simp [listMin, hmt]
      · rcases le_total a mt with h | h
        · rw [min_eq_left h]; exact List.mem_cons_self a t
        · rw [min_eq_right h]; exact List.mem_cons_of_mem a hmem
      · intro x hx
        rcases List.mem_cons.mp hx with rfl | hx
        · exact min_le_left _ _
        · exact le_trans (min_le_right _ _) (hle x hx)

theorem listMax_spec (l : List ℚ) :
    (l = [] ∧ listMax l = none) ∨
      ∃ m, listMax l = some m ∧ m ∈ l ∧ ∀ x ∈ l, x ≤ m := by
  induction l with
  | nil => exact Or.inl ⟨rfl, rfl⟩
  | cons a t ih =>
    right
    rcases ih with ⟨rfl, ht⟩ | ⟨mt, hmt, hmem, hle⟩
    · refine ⟨a, ?_, List.mem_cons_self a [], ?_⟩
      · simp [listMax]
      · intro x hx
        rcases List.mem_cons.mp hx with rfl | hx
        · exact le_rfl
        · simp at hx
    · refine ⟨max a mt, ?_, ?_, ?_⟩
      · simp [listMax, hmt]
      · rcases le_total a mt with h | h
        · rw [max_eq_right h]; exact List.mem_cons_of_mem a hmem
        · rw [max_eq_left h]; exact List.mem_cons_self a t
      · intro x hx
        rcases List.mem_cons.mp hx with rfl | hx
        · exact le_max_left _ _
        · exact le_trans (hle x hx) (le_max_right _ _)

theorem minmaxVal_bounds {l : List ℚ} {x : ℚ} (hx : x ∈ l) :
    0 ≤ minmaxVal l x ∧ minmaxVal l x ≤ 1 := by
  rcases listMin_spec l with ⟨rfl, _⟩ | ⟨mn, hmn, hmnmem, hmnle⟩
  · simp at hx
  rcases listMax_spec l with ⟨hl, _⟩ | ⟨mx, hmx, hmxmem, hmxge⟩
  · subst hl; simp at hx
  simp only [minmaxVal, hmn, hmx]
  by_cases heq : mn = mx
  · rw [if_pos heq]; norm_num
  · rw [if_neg heq]
    have h1 : mn ≤ x := hmnle x hx
    have h2 : x ≤ mx := hmxge x hx
    have h3 : mn < mx := lt_of_le_of_ne (le_trans h1 h2) heq
    constructor
    · exact div_nonneg (by linarith) (by linarith)
    · rw [div_le_one (by linarith)]
      linarith

theorem minmaxVal_const {l : List ℚ} {v x : ℚ} (hall : ∀ y ∈ l, y = v) (hx : x ∈ l) :
    minmaxVal l x = 1/2 := by
  rcases listMin_spec l with ⟨rfl, _⟩ | ⟨mn, hmn, hmnmem, _⟩
  · simp at hx
  rcases listMax_spec l with ⟨hl, _⟩ | ⟨mx, hmx, hmxmem, _⟩
  · subst hl; simp at hx
  simp only [minmaxVal, hmn, hmx]
  rw [if_pos ((hall mn hmnmem).trans (hall mx hmxmem).symm)]

theorem indexBounds {l : List ℚ} {x : ℚ} (hx : x ∈ l) :
    0 ≤ (1 - minmaxVal l x) * 100 ∧ (1 - minmaxVal l x) * 100 ≤ 100 := by
  obtain ⟨h0, h1⟩ := minmaxVal_bounds hx
  constructor <;> nlinarith

theorem flagInt_nonneg (b : Bool) : 0 ≤ flagInt b := by
  cases b <;> norm_num [flagInt]

theorem flagInt_le_one (b : Bool) : flagInt b ≤ 1 := by
  cases b <;> norm_num [flagInt]

theorem rawWeights_spec (w : Option Weights) :
    0 ≤ (rawWeights w).1 ∧ 0 ≤ (rawWeights w).2 ∧ (rawWeights w).1 + (rawWeights w).2 ≤ 1 := by
  cases w with
  | none => norm_num [rawWeights]
  | some w =>
    have ha : 0 ≤ clampNegWeight w.co2 := by
      unfold clampNegWeight; split
      · exact le_rfl
      · linarith [not_lt.mp (by assumption : ¬ w.co2 < 0)]
    have hb : 0 ≤ clampNegWeight w.cost := by
      unfold clampNegWeight; split
      · exact le_rfl
      · linarith [not_lt.mp (by assumption : ¬ w.cost < 0)]
    simp only [rawWeights]
    split_ifs with h
    · have hpos : 0 < clampNegWeight w.co2 + clampNegWeight w.cost := lt_trans one_pos h
      refine ⟨div_nonneg ha hpos.le, div_nonneg hb hpos.le, ?_⟩
      rw [div_add_div_same, div_le_one hpos]
    · exact ⟨ha, hb, not_lt.mp h⟩

theorem resolveWeights_spec (w : Option Weights) :
    0 ≤ (resolveWeights w).1 ∧ 0 ≤ (resolveWeights w).2.1 ∧ 0 ≤ (resolveWeights w).2.2 ∧
      (resolveWeights w).1 + (resolveWeights w).2.1 + (resolveWeights w).2.2 = 1 := by
  obtain ⟨ha, hb, hab⟩ := rawWeights_spec w
  unfold resolveWeights
  rw [if_neg (not_lt.mpr (by linarith))]
  refine ⟨ha, hb, ?_, ?_⟩
  · show 0 ≤ 1 - ((rawWeights w).1 + (rawWeights w).2)
    linarith
  · show (rawWeights w).1 + (rawWeights w).2 + (1 - ((rawWeights w).1 + (rawWeights w).2)) = 1
    ring

/-! ### Sorting lemmas -/

theorem insertDesc_perm (x : Candidate) (l : List Candidate) :
    (insertDesc x l).Perm (x :: l) := by
  induction l with
  | nil => exact List.Perm.refl _
  | cons y ys ih =>
    unfold insertDesc
    split_ifs with h
    · exact (ih.cons y).trans (List.Perm.swap x y ys)
    · exact List.Perm.refl _

theorem sortDesc_perm (l : List Candidate) : (sortDesc l).Perm l := by
  induction l with
  | nil => exact List.Perm.refl _
  | cons x xs ih => exact (insertDesc_perm x (sortDesc xs)).trans (ih.cons x)

theorem mem_sortDesc {c : Candidate} {l : List Candidate} : c ∈ sortDesc l ↔ c ∈ l :=
  (sortDesc_perm l).mem_iff

theorem mem_insertDesc {c x : Candidate} {l : List Candidate} :
    c ∈ insertDesc x l ↔ c = x ∨ c ∈ l :=
  (insertDesc_perm x l).mem_iff.trans List.mem_cons

theorem sublist_insertDesc (x : Candidate) (l : List Candidate) :
    List.Sublist l (insertDesc x l) := by
  induction l with
  | nil => exact List.nil_sublist _
  | cons y ys ih =>
    unfold insertDesc
    split_ifs with h
    · exact List.Sublist.cons₂ y ih
    · exact (List.Sublist.refl _).cons x

theorem cons_sublist_insertDesc {x b : Candidate} {l : List Candidate}
    (hb : b ∈ l) (hr : b.rankingScore ≤ x.rankingScore) :
    List.Sublist [x, b] (insertDesc x l) := by
  induction l with
  | nil => simp at hb
  | cons y ys ih =>
    unfold insertDesc
    split_ifs with h
    · rcases List.mem_cons.mp hb with rfl | hb'
      · exact absurd (lt_of_le_of_lt hr h) (lt_irrefl _)
      · exact (ih hb').cons y
    · exact List.Sublist.cons₂ x (List.singleton_sublist.mpr hb)

theorem pair_sublist_sortDesc {a b : Candidate} {l : List Candidate}
    (h : List.Sublist [a, b] l) (hr : b.rankingScore ≤ a.rankingScore) :
    List.Sublist [a, b] (sortDesc l) := by
  induction l with
  | nil => simp at h
  | cons x xs ih =>
    cases h with
    | cons _ h2 => exact (ih h2).trans (sublist_insertDesc x (sortDesc xs))
    | cons₂ _ h2 =>
      exact cons_sublist_insertDesc (mem_sortDesc.mpr (List.singleton_sublist.mp h2)) hr

theorem insertDesc_sorted {x : Candidate} {l : List Candidate}
    (hs : l.Pairwise (fun a b => b.rankingScore ≤ a.rankingScore)) :
    (insertDesc x l).Pairwise (fun a b => b.rankingScore ≤ a.rankingScore) := by
  induction l with
  | nil => simp [insertDesc]
  | cons y ys ih =>
    rcases List.pairwise_cons.mp hs with ⟨hy, hys⟩
    unfold insertDesc
    split_ifs with h
    · refine List.pairwise_cons.mpr ⟨?_, ih hys⟩
      intro c hc
      rcases mem_insertDesc.mp hc with rfl | hc'
      · exact h.le
      · exact hy c hc'
    · refine List.pairwise_cons.mpr ⟨?_, hs⟩
      intro c hc
      rcases List.mem_cons.mp hc with rfl | hc'
      · exact not_lt.mp h
      · exact le_trans (hy c hc') (not_lt.mp h)

theorem sortDesc_sorted (l : List Candidate) :
    (sortDesc l).Pairwise (fun a b => b.rankingScore ≤ a.rankingScore) := by
  induction l with
  | nil => simp [sortDesc]
  | cons x xs ih => exact insertDesc_sorted ih

/-! ### Mask filtering lemmas -/

theorem mem_maskFilter {α : Type} {x : α} :
    ∀ {l : List α} {m : List Bool}, x ∈ maskFilter l m → x ∈ l
  | [], m, h => by simp [maskFilter] at h
  | a :: l, [], h => by simp [maskFilter] at h
  | a :: l, b :: m, h => by
    unfold maskFilter at h
    split_ifs at h with hb
    · rcases List.mem_cons.mp h with rfl | h'
      · exact List.mem_cons_self _ _
      · exact List.mem_cons_of_mem _ (mem_maskFilter h')
    · exact List.mem_cons_of_mem _ (mem_maskFilter h)

theorem maskFilter_eq_nil {α : Type} :
    ∀ {l : List α} {m : List Bool}, (∀ b ∈ m, b = false) → maskFilter l m = []
  | [], _, _ => rfl
  | _ :: _, [], _ => rfl
  | a :: l, b :: m, h => by
    have hb : b = false := h b (List.mem_cons_self _ _)
    unfold maskFilter
    rw [if_neg (by simp [hb])]
    exact maskFilter_eq_nil (fun c hc => h c (List.mem_cons_of_mem _ hc))

/-! ### Membership chains through the pipeline -/

theorem mem_scoredOf {env : Env} {p : Product} {w : Option Weights} {s : Scored}
    (hs : s ∈ scoredOf env p w) :
    ∃ t ∈ prescoredOf env p,
      s = scoreOne ((prescoredOf env p).map clampedCost)
        ((prescoredOf env p).map clampedCO2) (resolveWeights w) t := by
  unfold scoredOf computeIndicesAndScores at hs
  rcases List.mem_map.mp hs with ⟨t, ht, rfl⟩
  exact ⟨t, ht, rfl⟩

theorem mem_prescoredOf {env : Env} {p : Product} {t : Prescored}
    (ht : t ∈ prescoredOf env p) : t.flags = computeFlags p t.mat := by
  unfold prescoredOf at ht
  rcases List.mem_map.mp ht with ⟨u, hu, rfl⟩
  rfl

theorem recommend_ok_eq {env : Env} {p : Product} {w : Option Weights} {l : List Candidate}
    (hman : env.manifestExists = true) (hfil : env.modelFilesExist = true)
    (h : recommend env p w = Except.ok l) : l = (sortedResultsOf env p w).take 5 := by
  unfold recommend loadModels at h
  rw [hman, hfil] at h
  simp at h
  exact h.symm

theorem recommend_ok_load {env : Env} {p : Product} {w : Option Weights} {l : List Candidate}
    (h : recommend env p w = Except.ok l) :
    env.manifestExists = true ∧ env.modelFilesExist = true := by
  by_cases hman : env.manifestExists = true
  · by_cases hfil : env.modelFilesExist = true
    · exact ⟨hman, hfil⟩
    · have hfil2 : env.modelFilesExist = false := by simpa using hfil
      unfold recommend loadModels at h
      rw [hman, hfil2] at h
      simp at h
  · have hman2 : env.manifestExists = false := by simpa using hman
    unfold recommend loadModels at h
    rw [hman2] at h
    simp at h

theorem mem_ok_recommend {env : Env} {p : Product} {w : Option Weights}
    {l : List Candidate} {c : Candidate}
    (h : recommend env p w = Except.ok l) (hc : c ∈ l) :
    ∃ s ∈ scoredOf env p w, c = buildResult s := by
  obtain ⟨hman, hfil⟩ := recommend_ok_load h
  have hl := recommend_ok_eq hman hfil h
  subst hl
  have hc1 : c ∈ sortedResultsOf env p w := (List.take_subset 5 _) hc
  have hc2 : c ∈ resultsOf env p w := mem_sortDesc.mp hc1
  unfold resultsOf at hc2
  rcases List.mem_map.mp hc2 with ⟨s, hs, rfl⟩
  exact ⟨s, hs, rfl⟩

/-! ### Min-max normalisation as a function of one distinguished element -/

theorem listMin_cons (a : ℚ) (xs : List ℚ) :
    listMin (a :: xs) = some (combineMin a (listMin xs)) := by
  cases h : listMin xs <;> simp [listMin, combineMin, h]

theorem listMax_cons (a : ℚ) (xs : List ℚ) :
    listMax (a :: xs) = some (combineMax a (listMax xs)) := by
  cases h : listMax xs <;> simp [listMax, combineMax, h]

theorem listMin_middle (l1 : List ℚ) (z : ℚ) (l2 : List ℚ) :
    listMin (l1 ++ z :: l2) = some (combineMin z (listMin (l1 ++ l2))) := by
  induction l1 with
  | nil => simp [listMin_cons]
  | cons a l1 ih =>
    rw [List.cons_append, listMin_cons, ih, List.cons_append, listMin_cons]
    cases h : listMin (l1 ++ l2) with
    | none => simp [combineMin, min_comm]
    | some m => simp [combineMin, min_left_comm]

theorem listMax_middle (l1 : List ℚ) (z : ℚ) (l2 : List ℚ) :
    listMax (l1 ++ z :: l2) = some (combineMax z (listMax (l1 ++ l2))) := by
  induction l1 with
  | nil => simp [listMax_cons]
  | cons a l1 ih =>
    rw [List.cons_append, listMax_cons, ih, List.cons_append, listMax_cons]
    cases h : listMax (l1 ++ l2) with
    | none => simp [combineMax, max_comm]
    | some m => simp [combineMax, max_left_comm]

/-- The normalised position of the distinguished element is monotone in its
value, for a fixed rest-of-series with minimum `om` and maximum `oM`. -/
theorem mm_scalar_mono {om oM z z' : ℚ} (hom : om ≤ oM) (hz : z ≤ z') :
    (if min z om = max z oM then (1:ℚ)/2 else (z - min z om) / (max z oM - min z om)) ≤
      (if min z' om = max z' oM then (1:ℚ)/2
        else (z' - min z' om) / (max z' oM - min z' om)) := by
  by_cases h1 : min z om = max z oM
  · rw [if_pos h1]
    have hzom : z = om ∧ om = oM := by
      constructor <;>
        [linarith [min_le_left z om, le_max_left z oM, min_le_right z om, le_max_right z oM];
          linarith [min_le_right z om, le_max_right z oM]]
    by_cases h2 : min z' om = max z' oM
    · rw [if_pos h2]
    · rw [if_neg h2]
      have hom' : om ≤ z' := by linarith [hzom.1]
      have hmin : min z' om = om := min_eq_right hom'
      have hmax : max z' oM = z' := max_eq_left (by linarith [hzom.2])
      rw [hmin, hmax]
      have hlt : om < z' := by
        rcases lt_or_eq_of_le hom' with h | h
        · exact h
        · exact absurd (by rw [hmin, hmax, h]) h2
      rw [div_self (by linarith : z' - om ≠ 0)]
      norm_num
  · rw [if_neg h1]
    have hmnmx : min z om < max z oM :=
      lt_of_le_of_ne (le_trans (min_le_right z om) (le_trans hom (le_max_right z oM))) h1
    by_cases h2 : min z' om = max z' oM
    · rw [if_pos h2]
      have hz'om : z' = om ∧ om = oM := by
        constructor <;>
          [linarith [min_le_left z' om, le_max_left z' oM, min_le_right z' om,
            le_max_right z' oM];
            linarith [min_le_right z' om, le_max_right z' oM]]
      have hzle : z ≤ om := by linarith [hz'om.1]
      have hmn : min z om = z := min_eq_left hzle
      have hmx : max z oM = oM := max_eq_right (le_trans hzle hom)
      rw [hmn, hmx]
      have hlt : z < oM := by rw [hmn, hmx] at hmnmx; exact hmnmx
      rcases lt_or_eq_of_le hzle with hlt2 | heq2
      · rw [div_eq_zero_iff.mpr (Or.inl (sub_self z))]
        norm_num
      · rw [sub_self, zero_div]
        norm_num
    · rw [if_neg h2]
      have hmnmx' : min z' om < max z' oM :=
        lt_of_le_of_ne (le_trans (min_le_right z' om) (le_trans hom (le_max_right z' oM))) h2
      rcases le_or_lt z' oM with hzoM | hzoM
      · have hmx : max z oM = oM := max_eq_right (le_trans hz hzoM)
        have hmx' : max z' oM = oM := max_eq_right hzoM
        rcases le_or_lt z' om with hzom | hzom
        · have hmn : min z om = z := min_eq_left (le_trans hz hzom)
          have hmn' : min z' om = z' := min_eq_left hzom
          rw [hmn, hmx, hmn', hmx', sub_self, sub_self, zero_div, zero_div]
        · have hmn' : min z' om = om := min_eq_right hzom.le
          rcases le_or_lt z om with hzom2 | hzom2
          · have hmn : min z om = z := min_eq_left hzom2
            rw [hmn, hmx, hmn', hmx', sub_self, zero_div]
            exact div_nonneg (by linarith) (by linarith)
          · have hmn : min z om = om := min_eq_right hzom2.le
            rw [hmn, hmx, hmn', hmx']
            have hden : 0 < oM - om := by rw [hmn, hmx] at hmnmx; linarith
            exact (div_le_div_iff_of_pos_right hden).mpr (by linarith)
      · have hmn' : min z' om = om := min_eq_right (le_trans hom hzoM.le)
        have hmx' : max z' oM = z' := max_eq_left hzoM.le
        rw [hmn', hmx']
        have hpos : 0 < z' - om := by
          rw [hmn', hmx'] at hmnmx'; linarith
        rw [div_self (ne_of_gt hpos)]
        rw [div_le_one (by linarith)]
        linarith [min_le_left z om, le_max_left z oM]

/-- Increasing the distinguished element of a series never decreases its
min-max-normalised position. -/
theorem minmaxVal_middle_mono (l1 l2 : List ℚ) {z z' : ℚ} (hz : z ≤ z') :
    minmaxVal (l1 ++ z :: l2) z ≤ minmaxVal (l1 ++ z' :: l2) z' := by
  rcases listMin_spec (l1 ++ l2) with ⟨hnil, hmin⟩ | ⟨om, hmin, hommem, homle⟩
  · have hmax : listMax (l1 ++ l2) = none := by rw [hnil]; rfl
    unfold minmaxVal
    rw [listMin_middle, listMax_middle, listMin_middle, listMax_middle, hmin, hmax]
    simp [combineMin, combineMax]
  · rcases listMax_spec (l1 ++ l2) with ⟨hnil, _⟩ | ⟨oM, hmax, hoMmem, hoMge⟩
    · rw [hnil] at hmin; cases hmin
    have hom : om ≤ oM := hoMge om hommem
    unfold minmaxVal
    rw [listMin_middle, listMax_middle, listMin_middle, listMax_middle, hmin, hmax]
    simp only [combineMin, combineMax]
    exact mm_scalar_mono hom hz

/-! ### Score bounds and monotonicity -/

theorem baseSuitability_eq (w : Option Weights) {zi ci : ℚ} (f : Flags)
    (hzi0 : 0 ≤ zi) (hzi1 : zi ≤ 100) (hci0 : 0 ≤ ci) (hci1 : ci ≤ 100) :
    baseSuitability (resolveWeights w) zi ci f =
      (resolveWeights w).1 * zi + (resolveWeights w).2.1 * ci +
        (resolveWeights w).2.2 * (100 - 25 * flagInt f.strengthInsufficient) := by
  obtain ⟨h1, h2, h3, h4⟩ := resolveWeights_spec w
  have f1 := flagInt_nonneg f.strengthInsufficient
  have f2 := flagInt_le_one f.strengthInsufficient
  have t1 : 0 ≤ (resolveWeights w).1 * zi := mul_nonneg h1 hzi0
  have t2 : 0 ≤ (resolveWeights w).2.1 * ci := mul_nonneg h2 hci0
  have t3 : 0 ≤ (resolveWeights w).2.2 * (100 - 25 * flagInt f.strengthInsufficient) :=
    mul_nonneg h3 (by linarith)
  have u1 : (resolveWeights w).1 * zi ≤ (resolveWeights w).1 * 100 :=
    mul_le_mul_of_nonneg_left hzi1 h1
  have u2 : (resolveWeights w).2.1 * ci ≤ (resolveWeights w).2.1 * 100 :=
    mul_le_mul_of_nonneg_left hci1 h2
  have u3 : (resolveWeights w).2.2 * (100 - 25 * flagInt f.strengthInsufficient) ≤
      (resolveWeights w).2.2 * 100 := mul_le_mul_of_nonneg_left (by linarith) h3
  unfold baseSuitability
  apply clip_eq_self
  · linarith
  · linarith

theorem suitabilityOf_bounds (w3 : ℚ × ℚ × ℚ) (zi ci : ℚ) (f : Flags) :
    0 ≤ suitabilityOf w3 zi ci f ∧ suitabilityOf w3 zi ci f ≤ 100 :=
  ⟨clip_low_le 0 100 _ (by norm_num), clip_le_high 0 100 _⟩

theorem rankingOf_bounds (suit zi ci : ℚ) :
    0 ≤ rankingOf suit zi ci ∧ rankingOf suit zi ci ≤ 100 :=
  ⟨clip_low_le 0 100 _ (by norm_num), clip_le_high 0 100 _⟩

theorem index_mem_bounds {cands : List Prescored} {t : Prescored} (ht : t ∈ cands) :
    (0 ≤ costIndexOf (cands.map clampedCost) t ∧ costIndexOf (cands.map clampedCost) t ≤ 100) ∧
      0 ≤ co2IndexOf (cands.map clampedCO2) t ∧ co2IndexOf (cands.map clampedCO2) t ≤ 100 := by
  have hc : clampedCost t ∈ cands.map clampedCost := List.mem_map_of_mem _ ht
  have hz : clampedCO2 t ∈ cands.map clampedCO2 := List.mem_map_of_mem _ ht
  exact ⟨indexBounds hc, indexBounds hz⟩

theorem rankingOf_mono_zi (w : Option Weights) {zi zi' : ℚ} (ci : ℚ) (f : Flags)
    (h : zi' ≤ zi) :
    rankingOf (suitabilityOf (resolveWeights w) zi' ci f) zi' ci ≤
      rankingOf (suitabilityOf (resolveWeights w) zi ci f) zi ci := by
  obtain ⟨h1, h2, h3, h4⟩ := resolveWeights_spec w
  have hbase : baseSuitability (resolveWeights w) zi' ci f ≤
      baseSuitability (resolveWeights w) zi ci f := by
    unfold baseSuitability
    apply clip_mono
    have := mul_le_mul_of_nonneg_left h h1
    linarith
  have hsuit : suitabilityOf (resolveWeights w) zi' ci f ≤
      suitabilityOf (resolveWeights w) zi ci f := by
    unfold suitabilityOf
    apply clip_mono
    linarith
  unfold rankingOf
  apply clip_mono
  linarith

theorem getD_map_middle {α β : Type} (F : α → β) (l1 : List α) (t : α) (l2 : List α)
    (d : β) : ((l1 ++ t :: l2).map F).getD l1.length d = F t := by
  induction l1 with
  | nil => rfl
  | cons a l1 ih => simpa using ih

/-! ### Claim theorems -/

/-- **C4.** For any supplied weights dict — and when none is supplied, where
the defaults co2=0.50 and cost=0.35 apply — the resolved coefficients satisfy
co2 + cost + risk = 1 and are nonnegative; negative inputs are clamped to 0;
if co2 + cost > 1 both are rescaled proportionally so their sum is exactly 1
and risk is 0; in particular weights {co2: 0.9, cost: 0.9} resolve to
{co2: 0.5, cost: 0.5, risk: 0}. -/
theorem c4_weight_resolution :
    (∀ w : Option Weights,
      0 ≤ (resolveWeights w).1 ∧ 0 ≤ (resolveWeights w).2.1 ∧
        0 ≤ (resolveWeights w).2.2 ∧
        (resolveWeights w).1 + (resolveWeights w).2.1 + (resolveWeights w).2.2 = 1) ∧
    resolveWeights none = (1/2, 35/100, 15/100) ∧
    resolveWeights (some ⟨9/10, 9/10⟩) = (1/2, 1/2, 0) ∧
    (∀ a b : ℚ, resolveWeights (some ⟨a, b⟩) = resolveWeights (some ⟨max a 0, max b 0⟩)) ∧
    (∀ a b : ℚ, 0 ≤ a → 0 ≤ b → 1 < a + b →
      resolveWeights (some ⟨a, b⟩) = (a / (a + b), b / (a + b), 0)) := by
  refine ⟨resolveWeights_spec, by decide, by decide, ?_, ?_⟩
  · intro a b
    have e1 : clampNegWeight a = clampNegWeight (max a 0) := by
      unfold clampNegWeight
      rcases lt_or_le a 0 with h | h
      · rw [if_pos h, if_neg (not_lt.mpr (le_max_right a 0)), max_eq_right h.le]
      · rw [if_neg (not_lt.mpr h), if_neg (not_lt.mpr (le_max_right a 0)), max_eq_left h]
    have e2 : clampNegWeight b = clampNegWeight (max b 0) := by
      unfold clampNegWeight
      rcases lt_or_le b 0 with h | h
      · rw [if_pos h, if_neg (not_lt.mpr (le_max_right b 0)), max_eq_right h.le]
      · rw [if_neg (not_lt.mpr h), if_neg (not_lt.mpr (le_max_right b 0)), max_eq_left h]
    have hraw : rawWeights (some ⟨a, b⟩) = rawWeights (some ⟨max a 0, max b 0⟩) := by
      simp only [rawWeights]
      rw [e1, e2]
    unfold resolveWeights
    rw [hraw]
  · intro a b ha hb hab
    have e1 : clampNegWeight a = a := if_neg (not_lt.mpr ha)
    have e2 : clampNegWeight b = b := if_neg (not_lt.mpr hb)
    have hpos : 0 < a + b := by linarith
    have hsum : a / (a + b) + b / (a + b) = 1 := by
      rw [div_add_div_same, div_self (ne_of_gt hpos)]
    have hraw : rawWeights (some ⟨a, b⟩) = (a / (a + b), b / (a + b)) := by
      simp only [rawWeights]
      rw [e1, e2, if_pos hab]
    unfold resolveWeights
    rw [hraw]
    rw [if_neg (by simp only [hsum]; norm_num)]
    simp only [hsum]
    norm_num

/-- Witness for C4: a concrete over-normalised weights dict. -/
theorem c4_witness : resolveWeights (some ⟨2, 3⟩) = (2/5, 3/5, 0) := by
  have h := c4_weight_resolution.2.2.2.2 2 3 (by norm_num) (by norm_num) (by norm_num)
  rw [h]
  norm_num

/-- **C8.** If the external predictor cannot be loaded (missing model manifest
or missing model files), `recommend` fails immediately with the explicit load
error raised by `load_models`; it never returns a (partial or
zero-substituted) result list. -/
theorem c8_predictor_unavailable (env : Env) (p : Product) (w : Option Weights) :
    (env.manifestExists = false →
      recommend env p w =
        Except.error "Missing model_manifest.json. Run train_models.py first.") ∧
    (env.manifestExists = true → env.modelFilesExist = false →
      recommend env p w = Except.error "Model files missing") ∧
    ((env.manifestExists = false ∨ env.modelFilesExist = false) →
      ∀ l, recommend env p w ≠ Except.ok l) := by
  refine ⟨?_, ?_, ?_⟩
  · intro h
    unfold recommend loadModels
    rw [h]
    simp
  · intro h1 h2
    unfold recommend loadModels
    rw [h1, h2]
    simp
  · intro h l hok
    obtain ⟨hm, hf⟩ := recommend_ok_load hok
    rcases h with h | h
    · rw [h] at hm; cases hm
    · rw [h] at hf; cases hf

/-- Witness for C8: a concrete environment with a missing manifest. -/
theorem c8_witness :
    recommend envNoManifest prodBudget none =
      Except.error "Missing model_manifest.json. Run train_models.py first." :=
  (c8_predictor_unavailable envNoManifest prodBudget none).1 rfl

/-- **C2.** For every surviving candidate, the suitability score equals
clip(w_co2·CO2Index + w_cost·CostIndex + w_risk·(100 − 25·is_strength_insufficient)
− (25·is_strength_insufficient + 20·is_moisture_insufficient +
20·is_oxygen_insufficient + 25·is_over_budget), 0, 100) — the code's
intermediate clip of the weighted base is a no-op because the base always lies
in [0,100] — and the ranking score equals
clip(0.60·suitability + 0.20·CO2Index + 0.20·CostIndex, 0, 100), where
w_co2, w_cost, w_risk are the resolved weights. -/
theorem c2_score_formulas (cands : List Prescored) (w : Option Weights) (s : Scored)
    (hs : s ∈ computeIndicesAndScores cands w) :
    s.suitability = clip 0 100
      ((resolveWeights w).1 * s.co2ImpactIndex +
        (resolveWeights w).2.1 * s.costEfficiencyIndex +
        (resolveWeights w).2.2 * (100 - 25 * flagInt s.flags.strengthInsufficient) -
        (25 * flagInt s.flags.strengthInsufficient +
          20 * flagInt s.flags.moistureInsufficient +
          20 * flagInt s.flags.oxygenInsufficient +
          25 * flagInt s.flags.overBudget)) ∧
    s.ranking = clip 0 100
      (60/100 * s.suitability + 20/100 * s.co2ImpactIndex +
        20/100 * s.costEfficiencyIndex) := by
  unfold computeIndicesAndScores at hs
  rcases List.mem_map.mp hs with ⟨t, ht, rfl⟩
  obtain ⟨⟨hci0, hci1⟩, hzi0, hzi1⟩ := index_mem_bounds ht
  simp only [scoreOne]
  constructor
  · unfold suitabilityOf
    rw [baseSuitability_eq w t.flags hzi0 hzi1 hci0 hci1]
    unfold penaltyOf
    congr 1
  · rfl

/-- Witness for C2: the formulas instantiated at a concrete two-candidate
surviving set. -/
theorem c2_witness :
    ((computeIndicesAndScores [tW, tW2] none).getD 0 defaultScored).ranking =
      clip 0 100
        (60/100 * ((computeIndicesAndScores [tW, tW2] none).getD 0 defaultScored).suitability +
          20/100 * ((computeIndicesAndScores [tW, tW2] none).getD 0 defaultScored).co2ImpactIndex +
          20/100 *
            ((computeIndicesAndScores [tW, tW2] none).getD 0 defaultScored).costEfficiencyIndex) :=
  (c2_score_formulas [tW, tW2] none _ (by decide)).2

/-- **C6 (amended).** Holding the surviving candidate set fixed — the same
materials, flags and cost predictions, with every other candidate's CO₂
prediction unchanged — increasing one surviving material's predicted CO₂
never increases that material's ranking score. -/
theorem c6_amended_ranking_antitone (pre post : List Prescored) (m : Material)
    (f : Flags) (pc : ℚ) {z z' : ℚ} (w : Option Weights) (hz : z ≤ z') :
    ((computeIndicesAndScores (pre ++ ⟨m, f, pc, z'⟩ :: post) w).getD
        pre.length defaultScored).ranking ≤
      ((computeIndicesAndScores (pre ++ ⟨m, f, pc, z⟩ :: post) w).getD
        pre.length defaultScored).ranking := by
  unfold computeIndicesAndScores
  rw [getD_map_middle, getD_map_middle]
  simp only [scoreOne]
  have hcosts : (pre ++ (⟨m, f, pc, z'⟩ : Prescored) :: post).map clampedCost =
      (pre ++ (⟨m, f, pc, z⟩ : Prescored) :: post).map clampedCost := by
    simp [List.map_append, clampedCost]
  rw [hcosts]
  have hci : costIndexOf ((pre ++ (⟨m, f, pc, z⟩ : Prescored) :: post).map clampedCost)
      (⟨m, f, pc, z'⟩ : Prescored) =
      costIndexOf ((pre ++ (⟨m, f, pc, z⟩ : Prescored) :: post).map clampedCost)
        (⟨m, f, pc, z⟩ : Prescored) := rfl
  rw [hci]
  have hz2 : max z 0 ≤ max z' 0 := max_le_max hz le_rfl
  have hmono := minmaxVal_middle_mono (pre.map clampedCO2) (post.map clampedCO2) hz2
  have hzi : co2IndexOf ((pre ++ (⟨m, f, pc, z'⟩ : Prescored) :: post).map clampedCO2)
      (⟨m, f, pc, z'⟩ : Prescored) ≤
      co2IndexOf ((pre ++ (⟨m, f, pc, z⟩ : Prescored) :: post).map clampedCO2)
        (⟨m, f, pc, z⟩ : Prescored) := by
    unfold co2IndexOf
    have e1 : clampedCO2 (⟨m, f, pc, z'⟩ : Prescored) = max z' 0 := rfl
    have e2 : clampedCO2 (⟨m, f, pc, z⟩ : Prescored) = max z 0 := rfl
    rw [e1, e2, List.map_append, List.map_cons, List.map_append, List.map_cons, e1, e2]
    linarith
  exact rankingOf_mono_zi w _ f hzi

/-- Witness for C6 (amended): a two-candidate surviving set where the second
candidate's CO₂ prediction is raised from 3 to 9. -/
theorem c6_amended_witness :
    ((computeIndicesAndScores [tW, ⟨tW2.mat, tW2.flags, tW2.predCost, 9⟩] none).getD
        1 defaultScored).ranking ≤
      ((computeIndicesAndScores [tW, ⟨tW2.mat, tW2.flags, tW2.predCost, 3⟩] none).getD
        1 defaultScored).ranking :=
  c6_amended_ranking_antitone [tW] [] tW2.mat tW2.flags tW2.predCost none (by norm_num)

/-- **C3.** All four reported quantities of every output candidate lie in
[0,100]; and when all surviving candidates share an identical (clamped)
predicted cost — or identical predicted CO₂ — the corresponding index is
exactly 50 for every one of them. -/
theorem c3_bounds_and_midpoint :
    (∀ (env : Env) (p : Product) (w : Option Weights) (l : List Candidate),
      recommend env p w = Except.ok l → ∀ c ∈ l,
        (0 ≤ c.costEfficiencyIndex ∧ c.costEfficiencyIndex ≤ 100) ∧
        (0 ≤ c.co2ImpactIndex ∧ c.co2ImpactIndex ≤ 100) ∧
        (0 ≤ c.suitabilityScore ∧ c.suitabilityScore ≤ 100) ∧
        (0 ≤ c.rankingScore ∧ c.rankingScore ≤ 100)) ∧
    (∀ (cands : List Prescored) (w : Option Weights) (v : ℚ),
      (∀ t ∈ cands, clampedCost t = v) →
      ∀ s ∈ computeIndicesAndScores cands w, s.costEfficiencyIndex = 50) ∧
    (∀ (cands : List Prescored) (w : Option Weights) (v : ℚ),
      (∀ t ∈ cands, clampedCO2 t = v) →
      ∀ s ∈ computeIndicesAndScores cands w, s.co2ImpactIndex = 50) := by
  refine ⟨?_, ?_, ?_⟩
  · intro env p w l h c hc
    rcases mem_ok_recommend h hc with ⟨s, hs, rfl⟩
    rcases mem_scoredOf hs with ⟨t, ht, rfl⟩
    obtain ⟨⟨a1, a2⟩, b1, b2⟩ := index_mem_bounds ht
    obtain ⟨s1, s2⟩ := suitabilityOf_bounds (resolveWeights w)
      (co2IndexOf ((prescoredOf env p).map clampedCO2) t)
      (costIndexOf ((prescoredOf env p).map clampedCost) t) t.flags
    obtain ⟨r1, r2⟩ := rankingOf_bounds
      (suitabilityOf (resolveWeights w)
        (co2IndexOf ((prescoredOf env p).map clampedCO2) t)
        (costIndexOf ((prescoredOf env p).map clampedCost) t) t.flags)
      (co2IndexOf ((prescoredOf env p).map clampedCO2) t)
      (costIndexOf ((prescoredOf env p).map clampedCost) t)
    exact ⟨⟨a1, a2⟩, ⟨b1, b2⟩, ⟨s1, s2⟩, r1, r2⟩
  · intro cands w v hall s hs
    unfold computeIndicesAndScores at hs
    rcases List.mem_map.mp hs with ⟨t, ht, rfl⟩
    show costIndexOf (cands.map clampedCost) t = 50
    unfold costIndexOf
    rw [minmaxVal_const (v := v) ?_ (List.mem_map_of_mem _ ht)]
    · norm_num
    · intro y hy
      rcases List.mem_map.mp hy with ⟨u, hu, rfl⟩
      exact hall u hu
  · intro cands w v hall s hs
    unfold computeIndicesAndScores at hs
    rcases List.mem_map.mp hs with ⟨t, ht, rfl⟩
    show co2IndexOf (cands.map clampedCO2) t = 50
    unfold co2IndexOf
    rw [minmaxVal_const (v := v) ?_ (List.mem_map_of_mem _ ht)]
    · norm_num
    · intro y hy
      rcases List.mem_map.mp hy with ⟨u, hu, rfl⟩
      exact hall u hu

set_option maxRecDepth 100000 in
/-- Witness for C3: the bounds at a concrete recommendation output and the
50-midpoint at a concrete identical-cost surviving set. -/
theorem c3_witness :
    ((0 ≤ (((recommend envC10 prodC10 none).toOption.getD []).getD
          0 defaultCandidate).costEfficiencyIndex ∧
        (((recommend envC10 prodC10 none).toOption.getD []).getD
          0 defaultCandidate).costEfficiencyIndex ≤ 100) ∧
      ((computeIndicesAndScores [tW, ⟨tW2.mat, tW2.flags, 5, 9⟩] none).getD
          0 defaultScored).costEfficiencyIndex = 50) := by
  constructor
  · have hok : recommend envC10 prodC10 none =
        Except.ok ((recommend envC10 prodC10 none).toOption.getD []) := rfl
    have hmem : (((recommend envC10 prodC10 none).toOption.getD []).getD
        0 defaultCandidate) ∈ (recommend envC10 prodC10 none).toOption.getD [] := by decide
    exact (c3_bounds_and_midpoint.1 envC10 prodC10 none _ hok _ hmem).1
  · refine c3_bounds_and_midpoint.2.1 [tW, ⟨tW2.mat, tW2.flags, 5, 9⟩] none 5 (by decide) _ ?_
    decide

set_option maxRecDepth 200000 in
/-- Counterexample to **C6** as stated: `envC6a` and `envC6b` share the same
catalog, the same cost model and the same CO₂ predictions for materials A, J
and K; only material I's predicted CO₂ is raised from 1 to 6.  The increase
raises the median-CO₂ threshold from 3.5 to 6, which admits the very
expensive material J into the surviving set, re-bases the cost
normalisation, and material I's ranking score *rises* from 29.5 to 50 even
though only its own predicted CO₂ went up. -/
theorem c6_counterexample :
    envC6b.catalog = envC6a.catalog ∧
    envC6b.costModel = envC6a.costModel ∧
    (envC6a.co2Model prodFree matA6 = 0 ∧ envC6b.co2Model prodFree matA6 = 0 ∧
      envC6a.co2Model prodFree matJ6 = 6 ∧ envC6b.co2Model prodFree matJ6 = 6 ∧
      envC6a.co2Model prodFree matK6 = 100 ∧ envC6b.co2Model prodFree matK6 = 100 ∧
      envC6a.co2Model prodFree matI6 = 1 ∧ envC6b.co2Model prodFree matI6 = 6) ∧
    ((((recommend envC6a prodFree none).toOption.getD []).getD
        1 defaultCandidate).materialName = "I" ∧
      (((recommend envC6a prodFree none).toOption.getD []).getD
        1 defaultCandidate).rankingScore = 59/2) ∧
    ((((recommend envC6b prodFree none).toOption.getD []).getD
        1 defaultCandidate).materialName = "I" ∧
      (((recommend envC6b prodFree none).toOption.getD []).getD
        1 defaultCandidate).rankingScore = 50) ∧
    (59/2 : ℚ) < 50 := by
  refine ⟨rfl, rfl, by decide, by decide, by decide, by decide⟩

/-- **C5 (amended).** Any successful `recommend` output is sorted by ranking
score descending, contains at most 5 entries (a fixed cap: the function takes
only the product and the weights, so no caller input can raise it), equals
the first five entries of the stably sorted results list, and candidates with
equal — or ordered — ranking scores keep their relative order from the
unsorted results list (which is in catalog order); the function returns only
this list, with no separate "best" field. -/
theorem c5_sorted_capped_stable (env : Env) (p : Product) (w : Option Weights)
    (l : List Candidate) (h : recommend env p w = Except.ok l) :
    l.Pairwise (fun a b => b.rankingScore ≤ a.rankingScore) ∧
    l.length ≤ 5 ∧
    l = (sortedResultsOf env p w).take 5 ∧
    (∀ a b : Candidate, List.Sublist [a, b] (resultsOf env p w) →
      b.rankingScore ≤ a.rankingScore →
      List.Sublist [a, b] (sortedResultsOf env p w)) := by
  obtain ⟨hman, hfil⟩ := recommend_ok_load h
  have hl := recommend_ok_eq hman hfil h
  subst hl
  refine ⟨?_, ?_, rfl, ?_⟩
  · exact List.Pairwise.sublist (List.take_sublist 5 _) (sortDesc_sorted (resultsOf env p w))
  · exact List.length_take_le 5 (sortedResultsOf env p w)
  · intro a b hab hr
    exact pair_sublist_sortDesc hab hr

set_option maxRecDepth 200000 in
/-- Witness for C5 (amended): the sortedness and cap at a concrete
six-material environment. -/
theorem c5_witness :
    ((recommend envC5 prodFree none).toOption.getD []).Pairwise
      (fun a b => b.rankingScore ≤ a.rankingScore) ∧
    ((recommend envC5 prodFree none).toOption.getD []).length ≤ 5 := by
  have h := c5_sorted_capped_stable envC5 prodFree none
    ((recommend envC5 prodFree none).toOption.getD []) rfl
  exact ⟨h.1, h.2.1⟩

set_option maxRecDepth 200000 in
/-- Counterexample to **C5** as stated: under `envC5` six materials pass the
feasibility filter and are scored, yet the returned list always has exactly
five entries — the truncation limit is hardcoded to 5 in `recommend`, which
takes no top-N argument, so it is not caller-overridable, and the sixth
feasible candidate is unreachable. -/
theorem c5_counterexample :
    (scoredOf envC5 prodFree none).length = 6 ∧
    (resultsOf envC5 prodFree none).length = 6 ∧
    ((recommend envC5 prodFree none).toOption.getD []).length = 5 := by
  refine ⟨by decide, by decide, by decide⟩

theorem zipWith_eq_map_zip {α β γ : Type} (f : α → β → γ) :
    ∀ (l1 : List α) (l2 : List β),
      List.zipWith f l1 l2 = (l1.zip l2).map fun pr => f pr.1 pr.2
  | [], _ => rfl
  | _ :: _, [] => rfl
  | a :: l1, b :: l2 => by
    simp only [List.zipWith_cons_cons, List.zip_cons_cons, List.map_cons]
    exact congrArg _ (zipWith_eq_map_zip f l1 l2)

/-- **C1.** For a non-empty catalog, the feasibility filter keeps exactly the
materials whose clamped predicted cost is at most the budget and whose
clamped predicted CO₂ is at most the median of all M predicted CO₂ values;
if no material satisfies both, it keeps exactly the materials within budget;
and if the budget excludes every material, `recommend` returns
`Except.ok []` — a successful empty outcome, distinguishable by constructor
from the `Except.error` of a predictor failure. -/
theorem c1_feasibility_filter (env : Env) (p : Product) (w : Option Weights)
    (hcat : env.catalog ≠ []) :
    ((∃ pr ∈ (costValuesOf env p).zip (co2ValuesOf env p),
        pr.1 ≤ p.maxBudget ∧ pr.2 ≤ npMedian (co2ValuesOf env p)) →
      feasMaskOf env p = ((costValuesOf env p).zip (co2ValuesOf env p)).map
        (fun pr => decide (pr.1 ≤ p.maxBudget) &&
          decide (pr.2 ≤ npMedian (co2ValuesOf env p)))) ∧
    ((¬ ∃ pr ∈ (costValuesOf env p).zip (co2ValuesOf env p),
        pr.1 ≤ p.maxBudget ∧ pr.2 ≤ npMedian (co2ValuesOf env p)) →
      feasMaskOf env p = (costValuesOf env p).map (fun c => decide (c ≤ p.maxBudget))) ∧
    ((∀ c ∈ costValuesOf env p, ¬ c ≤ p.maxBudget) →
      env.manifestExists = true → env.modelFilesExist = true →
      recommend env p w = Except.ok []) := by
  have hco2ne : co2ValuesOf env p ≠ [] := by
    unfold co2ValuesOf predCO2List
    simpa using hcat
  have hstrict : strictMask (costValuesOf env p) (co2ValuesOf env p) p.maxBudget =
      ((costValuesOf env p).zip (co2ValuesOf env p)).map
        (fun pr => decide (pr.1 ≤ p.maxBudget) &&
          decide (pr.2 ≤ npMedian (co2ValuesOf env p))) := by
    unfold strictMask
    rw [if_neg (by simpa using hco2ne)]
    exact zipWith_eq_map_zip _ _ _
  have hany : ((strictMask (costValuesOf env p) (co2ValuesOf env p) p.maxBudget).any
        id = true) ↔
      (∃ pr ∈ (costValuesOf env p).zip (co2ValuesOf env p),
        pr.1 ≤ p.maxBudget ∧ pr.2 ≤ npMedian (co2ValuesOf env p)) := by
    rw [hstrict]
    constructor
    · intro hh
      rcases List.any_eq_true.mp hh with ⟨x, hx, hpx⟩
      rcases List.mem_map.mp hx with ⟨pr, hpr, rfl⟩
      refine ⟨pr, hpr, ?_⟩
      simpa using hpx
    · rintro ⟨pr, hpr, h1, h2⟩
      apply List.any_eq_true.mpr
      exact ⟨_, List.mem_map_of_mem _ hpr, by simpa using And.intro h1 h2⟩
  refine ⟨?_, ?_, ?_⟩
  · intro hex
    unfold feasMaskOf feasMask
    rw [if_pos (hany.mpr hex), hstrict]
  · intro hnex
    unfold feasMaskOf feasMask
    rw [if_neg (fun h => hnex (hany.mp h))]
  · intro hbud hman hfil
    have hfalse : ∀ b ∈ feasMaskOf env p, b = false := by
      intro b hb
      unfold feasMaskOf feasMask at hb
      split_ifs at hb with hc
      · rw [hstrict] at hb
        rcases List.mem_map.mp hb with ⟨pr, hpr, rfl⟩
        have h1 : pr.1 ∈ costValuesOf env p := (List.of_mem_zip hpr).1
        simp [hbud pr.1 h1]
      · rcases List.mem_map.mp hb with ⟨c, hcm, rfl⟩
        simp [hbud c hcm]
    have hsur : survivorsOf env p = [] := by
      unfold survivorsOf
      exact maskFilter_eq_nil hfalse
    have hres : sortedResultsOf env p w = [] := by
      unfold sortedResultsOf resultsOf scoredOf computeIndicesAndScores prescoredOf
      rw [hsur]
      rfl
    unfold recommend loadModels
    rw [hman, hfil, hres]
    simp

/-- Witness for C1: a concrete environment whose only material is predicted
far above the budget, so even the relaxed filter is empty and the call
succeeds with an empty list. -/
theorem c1_witness : recommend envBudget prodBudget none = Except.ok [] :=
  (c1_feasibility_filter envBudget prodBudget none (by decide)).2.2 (by decide) rfl rfl

/-- **C7 (amended).** Every numeric prediction is clamped through
`np.maximum(·, 0)`, so the values attached to materials and carried into the
feasibility filter and the scoring are never negative; a NaN prediction,
however, is *propagated* by `np.maximum`, not replaced by zero. -/
theorem c7_amended_clamping :
    (∀ q : ℚ, npMaximumZero (NpFloat.val q) = NpFloat.val (max q 0) ∧ 0 ≤ max q 0) ∧
    (∀ (env : Env) (p : Product), (∀ c ∈ costValuesOf env p, 0 ≤ c) ∧
      ∀ z ∈ co2ValuesOf env p, 0 ≤ z) ∧
    (∀ (env : Env) (p : Product) (w : Option Weights) (l : List Candidate),
      recommend env p w = Except.ok l → ∀ c ∈ l,
        0 ≤ c.predictedCost ∧ 0 ≤ c.predictedCO2) := by
  refine ⟨fun q => ⟨rfl, le_max_right q 0⟩, ?_, ?_⟩
  · intro env p
    constructor
    · intro c hc
      unfold costValuesOf at hc
      rcases List.mem_map.mp hc with ⟨v, hv, rfl⟩
      exact le_max_right v 0
    · intro z hz
      unfold co2ValuesOf at hz
      rcases List.mem_map.mp hz with ⟨v, hv, rfl⟩
      exact le_max_right v 0
  · intro env p w l h c hc
    rcases mem_ok_recommend h hc with ⟨s, hs, rfl⟩
    rcases mem_scoredOf hs with ⟨t, ht, rfl⟩
    exact ⟨le_max_right _ _, le_max_right _ _⟩

set_option maxRecDepth 100000 in
/-- Witness for C7 (amended): nonnegative prediction pair on a concrete
output. -/
theorem c7_witness :
    0 ≤ (((recommend envC10 prodC10 none).toOption.getD []).getD
        0 defaultCandidate).predictedCost ∧
      0 ≤ (((recommend envC10 prodC10 none).toOption.getD []).getD
        0 defaultCandidate).predictedCO2 :=
  c7_amended_clamping.2.2 envC10 prodC10 none _ rfl _ (by decide)

/-- Counterexample to **C7** as stated: `np.maximum(NaN, 0.0)` is NaN, so a
NaN prediction is not treated as zero — it propagates through the clamp. -/
theorem c7_counterexample :
    npMaximumZero NpFloat.nan = NpFloat.nan ∧ npMaximumZero NpFloat.nan ≠ NpFloat.val 0 :=
  ⟨rfl, by decide⟩

theorem pyRound1_tenth (n : ℤ) : pyRound1 ((n : ℚ) / 10) = (n : ℚ) / 10 := by
  unfold pyRound1 roundHalfEven
  have h10 : (10:ℚ) * ((n:ℚ)/10) = (n:ℚ) := by field_simp
  rw [h10, Int.floor_intCast]
  norm_num

/-- **C9 (amended).** For every output candidate, the reported
`confidenceScore` equals the suitability score rounded to one decimal place
(the clamp to [0,100] applied before rounding is a no-op because suitability
already lies in [0,100]); in particular the two agree whenever the
suitability score is an integer multiple of 0.1. -/
theorem c9_confidence_rounded (env : Env) (p : Product) (w : Option Weights)
    (l : List Candidate) (h : recommend env p w = Except.ok l)
    (c : Candidate) (hc : c ∈ l) :
    c.confidenceScore = pyRound1 c.suitabilityScore ∧
    (∀ n : ℤ, c.suitabilityScore = (n : ℚ) / 10 →
      c.confidenceScore = c.suitabilityScore) := by
  rcases mem_ok_recommend h hc with ⟨s, hs, rfl⟩
  rcases mem_scoredOf hs with ⟨t, ht, rfl⟩
  obtain ⟨h0, h1⟩ := suitabilityOf_bounds (resolveWeights w)
    (co2IndexOf ((prescoredOf env p).map clampedCO2) t)
    (costIndexOf ((prescoredOf env p).map clampedCost) t) t.flags
  have hconf : (buildResult (scoreOne ((prescoredOf env p).map clampedCost)
      ((prescoredOf env p).map clampedCO2) (resolveWeights w) t)).confidenceScore =
      pyRound1 (buildResult (scoreOne ((prescoredOf env p).map clampedCost)
        ((prescoredOf env p).map clampedCO2) (resolveWeights w) t)).suitabilityScore := by
    show pyRound1 (max 0 (min 100 (suitabilityOf (resolveWeights w)
        (co2IndexOf ((prescoredOf env p).map clampedCO2) t)
        (costIndexOf ((prescoredOf env p).map clampedCost) t) t.flags))) = _
    rw [min_eq_right h1, max_eq_right h0]
    rfl
  refine ⟨hconf, ?_⟩
  intro n hn
  rw [hconf, hn, pyRound1_tenth]

set_option maxRecDepth 200000 in
/-- Witness for C9 (amended): confidence equals rounded suitability on a
concrete output candidate. -/
theorem c9_witness :
    (((recommend envC9 prodFree none).toOption.getD []).getD
        0 defaultCandidate).confidenceScore =
      pyRound1 ((((recommend envC9 prodFree none).toOption.getD []).getD
        0 defaultCandidate).suitabilityScore) :=
  (c9_confidence_rounded envC9 prodFree none _ rfl _ (by decide)).1

set_option maxRecDepth 200000 in
/-- Counterexample to **C9** as stated: under `envC9` the second-ranked
candidate has suitability score 190/3 = 63.333…, but its reported confidence
is the rounded value 63.3, so confidence does not equal the suitability
score. -/
theorem c9_counterexample :
    (((recommend envC9 prodFree none).toOption.getD []).getD
        1 defaultCandidate).suitabilityScore = 190/3 ∧
    (((recommend envC9 prodFree none).toOption.getD []).getD
        1 defaultCandidate).confidenceScore = 633/10 ∧
    ((633:ℚ)/10) ≠ 190/3 :=
  ⟨by decide, by decide, by decide⟩

set_option maxRecDepth 100000 in
/-- **C10.** The four constraint flags of every scored row are computed by
`computeFlags` from the product fields and the material's static catalog
attributes alone — `computeFlags` takes no prediction argument, so the flags
cannot depend on the predictor outputs, and `overBudget` compares the catalog
cost per kg times the product weight against the budget.  Concretely, under
`envC10` the only material's predicted cost 5 passes the budget filter
(budget 10), yet its static cost 6·2 = 12 flags it over budget: it carries
the "Over budget" reason tag and its suitability 65/2 = 32.5 is exactly 25
points below the 115/2 = 57.5 obtained in `envC10b`, which differs only in
the catalog cost per kg. -/
theorem c10_flags_static :
    (∀ (env : Env) (p : Product) (w : Option Weights) (s : Scored),
      s ∈ scoredOf env p w → s.flags = computeFlags p s.mat) ∧
    ((scoredOf envC10 prodC10 none).length = 1 ∧
      ((scoredOf envC10 prodC10 none).getD 0 defaultScored).flags.overBudget = true ∧
      ((scoredOf envC10 prodC10 none).getD 0 defaultScored).predictedCost ≤
        prodC10.maxBudget ∧
      (((recommend envC10 prodC10 none).toOption.getD []).getD
        0 defaultCandidate).reason = "Over budget" ∧
      (((recommend envC10 prodC10 none).toOption.getD []).getD
        0 defaultCandidate).suitabilityScore = 65/2 ∧
      (((recommend envC10b prodC10 none).toOption.getD []).getD
        0 defaultCandidate).suitabilityScore = 115/2) := by
  constructor
  · intro env p w s hs
    rcases mem_scoredOf hs with ⟨t, ht, rfl⟩
    exact mem_prescoredOf ht
  · refine ⟨by decide, by decide, by decide, by decide, by decide, by decide⟩

set_option maxRecDepth 100000 in
/-- Witness for C10: the flag identity at the concrete over-budget scored
row. -/
theorem c10_witness :
    ((scoredOf envC10 prodC10 none).getD 0 defaultScored).flags =
      computeFlags prodC10 ((scoredOf envC10 prodC10 none).getD 0 defaultScored).mat :=
  c10_flags_static.1 envC10 prodC10 none _ (by decide)

end EcoPack
